import Mathlib

/-!
Verification development for the chatweb2 backend (src/server.js), a 1:1 chat
server: users, friend requests, conversations, messages, and a
persist-then-broadcast message pipeline.  The durable store (Postgres tables
users, friend_requests, conversations, messages) is embedded as a record of
row lists; each REST/socket handler of server.js is embedded as a pure
function from the store state to a result and a new state.  SERIAL ids and
now() timestamps are modelled by counters held in the state; the unique
index ux_conversations_user_pair on (LEAST(user_a,user_b),
GREATEST(user_a,user_b)) is modelled where it can fire, namely in the
two-phase (read snapshot, then commit) model of concurrent accepts.
-/

/-- Error taxonomy of the handlers: 400, 401, 403, 404, 500 equivalents. -/
inductive Err where
  | badRequest
  | unauthorized
  | forbidden
  | notFound
  | serverError
  deriving Repr, DecidableEq

/-- Row of the users table (password hash omitted: not used by the claims). -/
structure User where
  id : Nat
  name : String
  email : String
  deriving Repr, DecidableEq

/-- Row of the friend_requests table. -/
structure FriendRequest where
  id : Nat
  requester_id : Nat
  receiver_id : Nat
  status : String
  deriving Repr, DecidableEq

/-- Row of the conversations table. -/
structure Conversation where
  id : Nat
  user_a : Nat
  user_b : Nat
  deriving Repr, DecidableEq

/-- Row of the messages table.  The deleted flag is part of the Message tuple
in the data model of the spec (soft delete); the provided server variant
inserts rows with it unset. -/
structure Message where
  id : Nat
  conversation_id : Nat
  sender_id : Nat
  content : String
  created_at : Nat
  deleted : Bool
  deriving Repr, DecidableEq

/-- The durable store.  nextRequestId, nextConvId and nextMsgId model the
SERIAL sequences; clock models now(), strictly increasing per insert. -/
structure DB where
  users : List User
  friend_requests : List FriendRequest
  conversations : List Conversation
  messages : List Message
  nextRequestId : Nat
  nextConvId : Nat
  nextMsgId : Nat
  clock : Nat
  deriving Repr, DecidableEq

/-- Canonical unordered pair of a conversation row, as used by the unique
index ux_conversations_user_pair: (LEAST(user_a,user_b), GREATEST(user_a,user_b)). -/
def canonOf (c : Conversation) : Nat × Nat :=
  (min c.user_a c.user_b, max c.user_a c.user_b)

/-- The WHERE clause used by server.js to look a conversation up by pair:
LEAST(user_a,user_b) = LEAST(a,b) AND GREATEST(user_a,user_b) = GREATEST(a,b). -/
def convMatches (c : Conversation) (a b : Nat) : Bool :=
  (min c.user_a c.user_b == min a b) && (max c.user_a c.user_b == max a b)

/-- The ordered-pair predicate of the friend_requests unique constraint
UNIQUE (requester_id, receiver_id). -/
def frPair (r : FriendRequest) (rq rc : Nat) : Bool :=
  (r.requester_id == rq) && (r.receiver_id == rc)

/-- The idempotent upsert of POST /friends/request (server.js:327-333):
INSERT a pending row, ON CONFLICT (requester_id, receiver_id) DO UPDATE SET
status to pending.  The conflict branch updates in place, so a uniqueness
violation is absorbed, never surfaced. -/
def upsertFriendRequest (db : DB) (rq rc : Nat) : DB :=
  if db.friend_requests.any (fun r => frPair r rq rc) then
    { db with friend_requests :=
        (db.friend_requests.map
          (fun r => if frPair r rq rc then { r with status := "pending" } else r)) }
  else
    { db with
        friend_requests :=
          db.friend_requests ++ [⟨db.nextRequestId, rq, rc, "pending"⟩],
        nextRequestId := db.nextRequestId + 1 }

/-- POST /friends/request (server.js:317-345): resolve receiverEmail, reject
self-friending, then the idempotent upsert. -/
def friendsRequest (db : DB) (requesterId : Nat) (receiverEmail : String) :
    Except Err DB :=
  match db.users.find? (fun u => u.email == receiverEmail) with
  | none => .error .notFound
  | some u =>
      if u.id == requesterId then .error .badRequest
      else .ok (upsertFriendRequest db requesterId u.id)

/-- UPDATE friend_requests SET status=$1 WHERE id=$2. -/
def setRequestStatus (db : DB) (requestId : Nat) (st : String) : DB :=
  { db with friend_requests :=
      (db.friend_requests.map
        (fun r => if r.id == requestId then { r with status := st } else r)) }

/-- Result of POST /friends/respond. -/
inductive RespondRes where
  | ok (status : String) (conversationId : Option Nat)
  | err (e : Err)
  deriving Repr, DecidableEq

/-- POST /friends/respond (server.js:348-416), sequential semantics (the
whole handler runs against the store without interference; the concurrent
accept is modelled separately by acceptCommit).  Validation, lookup by
id AND receiver_id, then reject, or accept: status update plus
existence-check-then-insert of the conversation, in one transaction. -/
def friendsRespond (db : DB) (userId requestId : Nat) (action : String) :
    RespondRes × DB :=
  if requestId == 0 then (.err .badRequest, db)
  else if userId == 0 then (.err .unauthorized, db)
  else if !(action == "accept" || action == "reject") then (.err .badRequest, db)
  else
    match db.friend_requests.find?
        (fun r => (r.id == requestId) && (r.receiver_id == userId)) with
    | none => (.err .notFound, db)
    | some r =>
        if action == "reject" then
          (.ok "rejected" none, setRequestStatus db requestId "rejected")
        else
          match (setRequestStatus db requestId "accepted").conversations.find?
              (fun c => convMatches c r.requester_id userId) with
          | some c => (.ok "accepted" (some c.id),
                       setRequestStatus db requestId "accepted")
          | none =>
              (.ok "accepted"
                 (some (setRequestStatus db requestId "accepted").nextConvId),
               { setRequestStatus db requestId "accepted" with
                   conversations :=
                     (setRequestStatus db requestId "accepted").conversations
                       ++ [⟨(setRequestStatus db requestId "accepted").nextConvId,
                            r.requester_id, userId⟩],
                   nextConvId :=
                     (setRequestStatus db requestId "accepted").nextConvId + 1 })

/-- Read phase of a concurrent accept: the SELECT of server.js:387-391 taken
against some committed snapshot of the store. -/
def acceptRead (db : DB) (a b : Nat) : Option Nat :=
  (db.conversations.find? (fun c => convMatches c a b)).map (fun c => c.id)

/-- Commit phase of a concurrent accept for request requestId between
requesterId and receiverId, whose read phase returned readResult (possibly
against a stale snapshot).  If the read found a conversation, the commit is
the status update alone.  If the read found none, the commit attempts the
status update plus the conversation INSERT; the unique index
ux_conversations_user_pair rejects the INSERT when a row for the canonical
pair meanwhile exists, in which case server.js:409-412 ROLLBACKs the whole
transaction and returns a 500. -/
def acceptCommit (db : DB) (requestId requesterId receiverId : Nat)
    (readResult : Option Nat) : RespondRes × DB :=
  match readResult with
  | some cid => (.ok "accepted" (some cid), setRequestStatus db requestId "accepted")
  | none =>
      if db.conversations.any (fun c => convMatches c requesterId receiverId) then
        (.err .serverError, db)
      else
        (.ok "accepted"
           (some (setRequestStatus db requestId "accepted").nextConvId),
         { setRequestStatus db requestId "accepted" with
             conversations :=
               (setRequestStatus db requestId "accepted").conversations
                 ++ [⟨(setRequestStatus db requestId "accepted").nextConvId,
                      requesterId, receiverId⟩],
             nextConvId :=
               (setRequestStatus db requestId "accepted").nextConvId + 1 })

/-- First statement of POST /friends/remove: DELETE FROM friend_requests in
either direction between the pair. -/
def removeRequests (db : DB) (userId otherId : Nat) : DB :=
  { db with friend_requests :=
      (db.friend_requests.filter
        (fun r => !(frPair r userId otherId || frPair r otherId userId))) }

/-- POST /friends/remove (server.js:437-477): delete friend_requests rows in
both directions, locate the canonical conversation, and if found delete its
messages then the conversation row; always answers success. -/
def friendsRemove (db : DB) (userId otherId : Nat) : Bool × DB :=
  match (removeRequests db userId otherId).conversations.find?
      (fun c => convMatches c userId otherId) with
  | none => (true, removeRequests db userId otherId)
  | some c =>
      (true, { removeRequests db userId otherId with
          messages := (removeRequests db userId otherId).messages.filter
            (fun m => !(m.conversation_id == c.id)),
          conversations := (removeRequests db userId otherId).conversations.filter
            (fun x => !(x.id == c.id)) })

/-- Insertion step of the embedding of ORDER BY created_at DESC. -/
def insertByCreatedDesc (m : Message) : List Message → List Message
  | [] => [m]
  | x :: xs =>
      if x.created_at ≤ m.created_at then m :: x :: xs
      else x :: insertByCreatedDesc m xs

/-- ORDER BY created_at DESC, embedded as an insertion sort. -/
def sortByCreatedDesc : List Message → List Message
  | [] => []
  | x :: xs => insertByCreatedDesc x (sortByCreatedDesc xs)

/-- GET /conversations/:id/messages (server.js:504-525): participant check
(403 on failure, including a nonexistent conversation), then the newest-first
page of at most Math.min(200, limit or 50) messages. -/
def getMessages (db : DB) (convId uid : Nat) (limit : Option Nat) :
    Except Err (List Message) :=
  match db.conversations.find?
      (fun c => (c.id == convId) && ((c.user_a == uid) || (c.user_b == uid))) with
  | none => .error .forbidden
  | some _ =>
      .ok ((sortByCreatedDesc
              (db.messages.filter (fun m => m.conversation_id == convId))).take
            (min 200 (limit.getD 50)))

/-- Effects emitted by a send handler, in program order: the acknowledged
INSERT of message id m, and the broadcast of message id m to the
conversation group. -/
inductive Ev where
  | commit (m : Nat)
  | broadcast (m : Nat)
  deriving Repr, DecidableEq

/-- Output of a successful send: the new store state, the materialized
message object (the same object is returned to the caller and broadcast),
and the effect list in the order the handler performs them. -/
structure SendOut where
  db : DB
  msg : Message
  effects : List Ev
  deriving Repr, DecidableEq

/-- The trimmed-emptiness check of server.js:532 and 599, embedded over the
character list: the trimmed string is empty exactly when every character is
whitespace. -/
def blankContent (s : String) : Bool :=
  s.data.all (fun ch => ch.isWhitespace)

/-- POST /conversations/:id/messages (server.js:528-549): content must be a
string with non-empty trim (the stored value is the untrimmed original),
participant check, INSERT, then broadcast of the materialized message. -/
def restPostMessage (db : DB) (convId uid : Nat) (content : String) :
    Except Err SendOut :=
  if blankContent content then .error .badRequest
  else
    match db.conversations.find?
        (fun c => (c.id == convId) && ((c.user_a == uid) || (c.user_b == uid))) with
    | none => .error .forbidden
    | some _ =>
        let m : Message := ⟨db.nextMsgId, convId, uid, content, db.clock, false⟩
        .ok ⟨{ db with
                 messages := db.messages ++ [m],
                 nextMsgId := db.nextMsgId + 1,
                 clock := db.clock + 1 },
             m, [Ev.commit m.id, Ev.broadcast m.id]⟩

/-- The sendMessage socket handler (server.js:598-624): a falsy
conversationId (0 in this embedding) or a content whose trim is empty is an
invalid payload; then the same participant check, INSERT and broadcast as the
REST path. -/
def sendMessage (db : DB) (conversationId uid : Nat) (content : String) :
    Except Err SendOut :=
  if conversationId == 0 || blankContent content then .error .badRequest
  else
    match db.conversations.find?
        (fun c => (c.id == conversationId) &&
          ((c.user_a == uid) || (c.user_b == uid))) with
    | none => .error .forbidden
    | some _ =>
        let m : Message := ⟨db.nextMsgId, conversationId, uid, content, db.clock, false⟩
        .ok ⟨{ db with
                 messages := db.messages ++ [m],
                 nextMsgId := db.nextMsgId + 1,
                 clock := db.clock + 1 },
             m, [Ev.commit m.id, Ev.broadcast m.id]⟩

/-- Tombstone value a deleted message's content is replaced with; the client
(src/src/pages/chatpage.js:164,430) renders exactly this string. -/
def tombstone : String := "Message deleted"

/-- Deletion event broadcast to the conversation group. -/
structure DeleteEvent where
  conversationId : Nat
  messageId : Nat
  deriving Repr, DecidableEq

/-- Modelled from the spec: the server-side message-deletion operation
(the deleteMessage socket event and DELETE endpoint the client in
src/src/pages/chatpage.js:422-459 calls) is not among the provided server
sources; src/server.js has no delete handler.  Per spec section 4.4 Delete:
NotFound when no message with that id exists in that conversation; Forbidden
unless requesterId is the original sender; on success the content is
replaced with the tombstone and the deleted flag set, the row otherwise
preserved, and a messageDeleted event is broadcast to the conversation
group. -/
def deleteMessage (db : DB) (convId requesterId msgId : Nat) :
    Except Err (DB × DeleteEvent) :=
  match db.messages.find?
      (fun m => (m.id == msgId) && (m.conversation_id == convId)) with
  | none => .error .notFound
  | some m =>
      if m.sender_id == requesterId then
        .ok ({ db with messages :=
                 (db.messages.map
                   (fun x => if x.id == msgId then
                      { x with content := tombstone, deleted := true } else x)) },
             ⟨convId, msgId⟩)
      else .error .forbidden

/-- One unit of work against the store: each constructor is one handler call
of server.js (acceptPhase2 is the commit phase of a concurrent accept whose
read phase returned readResult, possibly stale). -/
inductive Op where
  | request (requesterId : Nat) (receiverEmail : String)
  | respond (userId requestId : Nat) (action : String)
  | remove (userId friendId : Nat)
  | restPost (convId uid : Nat) (content : String)
  | socketSend (convId uid : Nat) (content : String)
  | msgDelete (convId requesterId msgId : Nat)
  | acceptPhase2 (requestId requesterId receiverId : Nat) (readResult : Option Nat)

/-- The store state after an operation; a failed handler leaves the store
unchanged (single-statement mutations are atomic, and the accept
transaction ROLLBACKs on failure). -/
def applyOp (op : Op) (db : DB) : DB :=
  match op with
  | .request rq e =>
      match friendsRequest db rq e with
      | .ok db2 => db2
      | .error _ => db
  | .respond uid rid act => (friendsRespond db uid rid act).2
  | .remove uid fid => (friendsRemove db uid fid).2
  | .restPost c u s =>
      match restPostMessage db c u s with
      | .ok o => o.db
      | .error _ => db
  | .socketSend c u s =>
      match sendMessage db c u s with
      | .ok o => o.db
      | .error _ => db
  | .msgDelete c r mId =>
      match deleteMessage db c r mId with
      | .ok o => o.1
      | .error _ => db
  | .acceptPhase2 rid a b rr => (acceptCommit db rid a b rr).2

/-- The invariant enforced by the unique index ux_conversations_user_pair:
no two conversation rows share a canonical unordered pair. -/
def PairUnique (db : DB) : Prop :=
  db.conversations.Pairwise (fun c1 c2 => canonOf c1 ≠ canonOf c2)

/-- The invariant enforced by UNIQUE (requester_id, receiver_id) on
friend_requests: no two rows share the ordered pair. -/
def FRUnique (db : DB) : Prop :=
  db.friend_requests.Pairwise
    (fun r1 r2 => ¬(r1.requester_id = r2.requester_id ∧ r1.receiver_id = r2.receiver_id))

/-- Store invariant for messages: rows are held in insertion order, with
strictly increasing BIGSERIAL ids and strictly increasing commit
timestamps. -/
def MsgChron (db : DB) : Prop :=
  db.messages.Pairwise (fun m1 m2 => m1.id < m2.id ∧ m1.created_at < m2.created_at)

/-- State of the event loop serving concurrent sends: sends whose INSERT is
still pending at the store, the FIFO of handler continuations whose INSERT
was acknowledged but whose broadcast statement has not run yet (the
microtask queue), and the observable trace. -/
structure LoopState where
  pending : List Nat
  ready : List Nat
  trace : List Ev
  deriving Repr, DecidableEq

/-- Event-loop steps.  dbAck: the store acknowledges (commits) the INSERT of
some pending send, enqueuing its continuation; resume: the oldest
acknowledged continuation runs and performs its broadcast, which in both
handlers is the statement directly after the awaited INSERT. -/
inductive LoopStep : LoopState → LoopState → Prop where
  | dbAck (m : Nat) (pending ready : List Nat) (trace : List Ev) :
      m ∈ pending →
      LoopStep ⟨pending, ready, trace⟩
        ⟨pending.erase m, ready ++ [m], trace ++ [Ev.commit m]⟩
  | resume (m : Nat) (pending ready : List Nat) (trace : List Ev) :
      LoopStep ⟨pending, m :: ready, trace⟩
        ⟨pending, ready, trace ++ [Ev.broadcast m]⟩

/-- Event-loop states reachable from an initial batch of sends. -/
inductive LoopReach : LoopState → Prop where
  | init (sends : List Nat) : LoopReach ⟨sends, [], []⟩
  | step {s s2 : LoopState} : LoopReach s → LoopStep s s2 → LoopReach s2

/-- Sequence of committed message ids in a trace. -/
def commitsOf : List Ev → List Nat
  | [] => []
  | Ev.commit m :: t => m :: commitsOf t
  | Ev.broadcast _ :: t => commitsOf t

/-- Sequence of broadcast message ids in a trace. -/
def broadcastsOf : List Ev → List Nat
  | [] => []
  | Ev.commit _ :: t => broadcastsOf t
  | Ev.broadcast m :: t => m :: broadcastsOf t

/-- Two registered users used by concrete instances. -/
def userA : User := ⟨1, "alice", "a@x.com"⟩

/-- Second registered user used by concrete instances. -/
def userB : User := ⟨2, "bob", "b@x.com"⟩

/-- Store with a pending request from userA to userB and an existing
conversation 5 between them. -/
def dbReq : DB :=
  ⟨[userA, userB], [⟨1, 1, 2, "pending"⟩], [⟨5, 1, 2⟩], [], 2, 6, 1, 0⟩

/-- Store with a previously rejected request from userA to userB. -/
def dbRejected : DB :=
  ⟨[userA, userB], [⟨1, 1, 2, "rejected"⟩], [], [], 2, 1, 1, 0⟩

/-- Store where users 10 and 20 hold pending requests toward each other and
no conversation exists yet. -/
def dbTwoPending : DB :=
  ⟨[⟨10, "u10", "u10@x"⟩, ⟨20, "u20", "u20@x"⟩],
   [⟨1, 10, 20, "pending"⟩, ⟨2, 20, 10, "pending"⟩], [], [], 3, 1, 1, 0⟩

/-- Store after the accept of request 2 committed first: the commit phase of
the accept of request 1, whose read saw no conversation, now races it. -/
def dbAfterSecondAccept : DB := (acceptCommit dbTwoPending 2 20 10 none).2

/-- Store with conversation 5 between users 1 and 2 holding two messages,
plus accepted friendship rows. -/
def dbChat : DB :=
  ⟨[userA, userB],
   [⟨1, 1, 2, "accepted"⟩, ⟨2, 2, 1, "pending"⟩],
   [⟨5, 1, 2⟩],
   [⟨1, 5, 1, "hello", 0, false⟩, ⟨2, 5, 2, "hi back", 1, false⟩],
   3, 6, 3, 2⟩

/-- Two members of a list pairwise-distinct under a key function and sharing
a key are the same element. -/
theorem mem_eq_of_pairwise_ne {α β : Type} (f : α → β) {l : List α}
    (hp : l.Pairwise (fun x y => f x ≠ f y)) {x y : α}
    (hx : x ∈ l) (hy : y ∈ l) (he : f x = f y) : x = y := by
  induction l with
  | nil => cases hx
  | cons a t ih =>
      rcases List.pairwise_cons.mp hp with ⟨ha, ht⟩
      rcases List.mem_cons.mp hx with hx1 | hx1
      · rcases List.mem_cons.mp hy with hy1 | hy1
        · rw [hx1, hy1]
        · exact absurd (hx1 ▸ he) (ha y hy1)
      · rcases List.mem_cons.mp hy with hy1 | hy1
        · exact absurd (hy1 ▸ he).symm (ha x hx1)
        · exact ih ht hx1 hy1

/-- A list pairwise-distinct under a key function holds at most one element
satisfying any predicate that pins the key down. -/
theorem countP_le_one_of_pairwise_ne {α β : Type} (f : α → β) {l : List α}
    (hp : l.Pairwise (fun x y => f x ≠ f y)) (p : α → Bool)
    (hkey : ∀ x y, p x = true → p y = true → f x = f y) :
    l.countP p ≤ 1 := by
  induction l with
  | nil => simp [List.countP_nil]
  | cons a t ih =>
      rcases List.pairwise_cons.mp hp with ⟨ha, ht⟩
      by_cases hpa : p a = true
      · rw [List.countP_cons_of_pos _ _ hpa]
        have hz : t.countP p = 0 := by
          rw [List.countP_eq_zero]
          intro y hy hpy
          exact ha y hy (hkey a y hpa hpy)
        omega
      · rw [List.countP_cons_of_neg _ _ hpa]
        exact ih ht

/-- convMatches holds exactly when the canonical pair of the row equals the
canonical pair of the two ids. -/
theorem convMatches_iff {c : Conversation} {a b : Nat} :
    convMatches c a b = true ↔ canonOf c = (min a b, max a b) := by
  simp [convMatches, canonOf, Prod.ext_iff]

/-- The upsert never touches the users table. -/
theorem upsert_users (db : DB) (rq rc : Nat) :
    (upsertFriendRequest db rq rc).users = db.users := by
  unfold upsertFriendRequest; split <;> rfl

/-- The upsert never touches the conversations table. -/
theorem upsert_conversations (db : DB) (rq rc : Nat) :
    (upsertFriendRequest db rq rc).conversations = db.conversations := by
  unfold upsertFriendRequest; split <;> rfl

/-- The conflict branch of the upsert rewrites only the status, so the
ordered-pair predicate is untouched row by row. -/
theorem frPair_upsert_map (rq rc : Nat) (r : FriendRequest) :
    frPair (if frPair r rq rc then { r with status := "pending" } else r) rq rc
      = frPair r rq rc := by
  by_cases h : frPair r rq rc = true
  · simp only [h, if_true]; simp [frPair] at h ⊢; exact h
  · simp only [Bool.not_eq_true] at h; simp [h]

/-- Number of rows for the ordered pair after the upsert: unchanged when the
pair already existed (conflict branch updates in place), one more when it
did not. -/
theorem upsert_countP (db : DB) (rq rc : Nat) :
    (upsertFriendRequest db rq rc).friend_requests.countP (fun r => frPair r rq rc)
      = if db.friend_requests.any (fun r => frPair r rq rc) then
          db.friend_requests.countP (fun r => frPair r rq rc)
        else db.friend_requests.countP (fun r => frPair r rq rc) + 1 := by
  unfold upsertFriendRequest
  split
  · next h =>
      simp only [h, if_true, List.countP_map]
      apply List.countP_congr
      intro r _
      show frPair (if frPair r rq rc then { r with status := "pending" } else r) rq rc
            = true ↔ frPair r rq rc = true
      rw [frPair_upsert_map rq rc r]
  · next h =>
      simp only [Bool.not_eq_true] at h
      simp [h, List.countP_append, List.countP_cons, frPair]

/-- After the upsert, every row for the ordered pair has status pending. -/
theorem upsert_status (db : DB) (rq rc : Nat) :
    ∀ r ∈ (upsertFriendRequest db rq rc).friend_requests,
      frPair r rq rc = true → r.status = "pending" := by
  unfold upsertFriendRequest
  split
  · next h =>
      intro r hr hp
      simp only [List.mem_map] at hr
      rcases hr with ⟨r0, hr0, hre⟩
      by_cases h0 : frPair r0 rq rc = true
      · rw [← hre]; simp [h0]
      · simp only [Bool.not_eq_true] at h0
        rw [← hre] at hp
        simp [h0] at hp
  · next h =>
      intro r hr hp
      simp only [Bool.not_eq_true] at h
      rcases List.mem_append.mp hr with hold | hnew
      · exfalso
        have := List.any_eq_false.mp h r hold
        simp [hp] at this
      · simp only [List.mem_singleton] at hnew
        rw [hnew]

/-- C2: for a resolvable receiver email naming a user other than the
requester, calling POST /friends/request twice in a row succeeds both times
(the ON CONFLICT upsert absorbs the uniqueness constraint), leaves exactly
one friend_requests row for the ordered pair, and leaves that row with
status pending regardless of the status it had before. -/
theorem friend_request_upsert_idempotent
    (db : DB) (rq : Nat) (e : String) (u : User)
    (hU : FRUnique db)
    (hfind : db.users.find? (fun x => x.email == e) = some u)
    (hne : u.id ≠ rq) :
    ∃ db1 db2,
      friendsRequest db rq e = .ok db1 ∧
      friendsRequest db1 rq e = .ok db2 ∧
      db2.friend_requests.countP (fun r => frPair r rq u.id) = 1 ∧
      (∀ r ∈ db2.friend_requests, frPair r rq u.id = true → r.status = "pending") := by
  refine ⟨upsertFriendRequest db rq u.id,
          upsertFriendRequest (upsertFriendRequest db rq u.id) rq u.id,
          ?_, ?_, ?_, ?_⟩
  · unfold friendsRequest
    rw [hfind]
    simp [hne]
  · unfold friendsRequest
    rw [upsert_users, hfind]
    simp [hne]
  · have h1 : (upsertFriendRequest db rq u.id).friend_requests.countP
        (fun r => frPair r rq u.id) = 1 := by
      rw [upsert_countP]
      by_cases hany : db.friend_requests.any (fun r => frPair r rq u.id) = true
      · simp only [hany, if_true]
        have hle : db.friend_requests.countP (fun r => frPair r rq u.id) ≤ 1 := by
          apply countP_le_one_of_pairwise_ne
            (fun r => (r.requester_id, r.receiver_id))
          · have hU2 : db.friend_requests.Pairwise
                (fun x y => ¬(x.requester_id = y.requester_id ∧
                              x.receiver_id = y.receiver_id)) := hU
            exact hU2.imp (fun h hc =>
              h ⟨congrArg Prod.fst hc, congrArg Prod.snd hc⟩)
          · intro x y hx hy
            simp only [frPair, Bool.and_eq_true, beq_iff_eq] at hx hy
            rw [hx.1, hx.2, hy.1, hy.2]
        have hpos : 0 < db.friend_requests.countP (fun r => frPair r rq u.id) := by
          rw [List.countP_pos_iff]
          rcases List.any_eq_true.mp hany with ⟨r, hr, hp⟩
          exact ⟨r, hr, hp⟩
        omega
      · simp only [Bool.not_eq_true] at hany
        simp only [hany, Bool.false_eq_true, if_false]
        have hz : db.friend_requests.countP (fun r => frPair r rq u.id) = 0 := by
          rw [List.countP_eq_zero]
          intro r hr hp
          exact (List.any_eq_false.mp hany r hr) hp
        omega
    rw [upsert_countP]
    have hpos : 0 < (upsertFriendRequest db rq u.id).friend_requests.countP
        (fun r => frPair r rq u.id) := by
      rw [h1]; exact Nat.one_pos
    have hany1 : (upsertFriendRequest db rq u.id).friend_requests.any
        (fun r => frPair r rq u.id) = true := by
      rw [List.any_eq_true]
      rcases List.countP_pos_iff.mp hpos with ⟨r, hr, hp⟩
      exact ⟨r, hr, hp⟩
    simp only [hany1, if_true]
    exact h1
  · exact upsert_status _ rq u.id

/-- Concrete run of the C2 theorem: re-requesting after a rejection, twice,
on the store dbRejected. -/
theorem friend_request_upsert_idempotent_witness :
    ∃ db1 db2,
      friendsRequest dbRejected 1 "b@x.com" = .ok db1 ∧
      friendsRequest db1 1 "b@x.com" = .ok db2 ∧
      db2.friend_requests.countP (fun r => frPair r 1 userB.id) = 1 ∧
      (∀ r ∈ db2.friend_requests, frPair r 1 userB.id = true →
        r.status = "pending") :=
  friend_request_upsert_idempotent dbRejected 1 "b@x.com" userB
    (by unfold FRUnique; decide) (by decide) (by decide)

/-- C9: POST /friends/respond answers 404 and leaves the store untouched
whenever no friend_requests row has both the given id and the responder as
its receiver; in particular a row whose id matches but whose receiver is a
different user is NotFound. -/
theorem respond_not_found_auth
    (db : DB) (userId requestId : Nat) (action : String)
    (hrid : requestId ≠ 0) (huid : userId ≠ 0)
    (hact : action = "accept" ∨ action = "reject")
    (hnone : ∀ r ∈ db.friend_requests,
      ¬(r.id = requestId ∧ r.receiver_id = userId)) :
    friendsRespond db userId requestId action = (.err .notFound, db) := by
  unfold friendsRespond
  have h1 : (requestId == 0) = false := by simpa using hrid
  have h2 : (userId == 0) = false := by simpa using huid
  have h3 : (!(action == "accept" || action == "reject")) = false := by
    rcases hact with h | h <;> simp [h]
  have h4 : db.friend_requests.find?
      (fun r => (r.id == requestId) && (r.receiver_id == userId)) = none := by
    rw [List.find?_eq_none]
    intro r hr
    have := hnone r hr
    simp only [Bool.and_eq_true, beq_iff_eq]
    intro hc
    exact this hc
  simp [h1, h2, h3, h4]

/-- Concrete run of the C9 theorem: request 1 exists with receiver 2, but
user 9 responds, so the lookup by id AND receiver yields NotFound and the
pending status survives. -/
theorem respond_not_found_auth_witness :
    friendsRespond dbReq 9 1 "accept" = (.err .notFound, dbReq) :=
  respond_not_found_auth dbReq 9 1 "accept" (by decide) (by decide)
    (Or.inl rfl) (by decide)

/-- A remove on a store already clean of the pair changes nothing and still
answers success. -/
theorem friendsRemove_noop (d : DB) (u v : Nat)
    (h1 : ∀ r ∈ d.friend_requests, (frPair r u v || frPair r v u) = false)
    (h2 : ∀ c ∈ d.conversations, convMatches c u v = false) :
    friendsRemove d u v = (true, d) := by
  have hrr : removeRequests d u v = d := by
    unfold removeRequests
    rw [List.filter_eq_self.mpr (fun r hr => by simp [h1 r hr])]
  unfold friendsRemove
  rw [hrr, List.find?_eq_none.mpr (fun x hx => by simp [h2 x hx])]

/-- The friend_requests table after a remove: both directions filtered out,
in either branch of the conversation lookup. -/
theorem remove_requests (db : DB) (u v : Nat) :
    (friendsRemove db u v).2.friend_requests
      = db.friend_requests.filter (fun r => !(frPair r u v || frPair r v u)) := by
  unfold friendsRemove
  split <;> rfl

/-- A remove always reports success. -/
theorem remove_fst (db : DB) (u v : Nat) : (friendsRemove db u v).1 = true := by
  unfold friendsRemove
  split <;> rfl

/-- C5: removal is total and idempotent: it answers success on any store
(also when there is nothing to remove), a second identical call answers
success and changes nothing further, and after the first call no
friend_requests row in either direction, no conversation for the canonical
pair, and no message of a conversation of the pair remains. -/
theorem friends_remove_idempotent (db : DB) (u v : Nat) (hPU : PairUnique db) :
    (friendsRemove db u v).1 = true ∧
    (friendsRemove (friendsRemove db u v).2 u v).1 = true ∧
    (friendsRemove (friendsRemove db u v).2 u v).2 = (friendsRemove db u v).2 ∧
    (∀ r ∈ (friendsRemove db u v).2.friend_requests,
      frPair r u v = false ∧ frPair r v u = false) ∧
    (∀ c ∈ (friendsRemove db u v).2.conversations, convMatches c u v = false) ∧
    (∀ c0 ∈ db.conversations, convMatches c0 u v = true →
      ∀ m ∈ (friendsRemove db u v).2.messages, m.conversation_id ≠ c0.id) := by
  have hPU2 : db.conversations.Pairwise (fun c1 c2 => canonOf c1 ≠ canonOf c2) := hPU
  have hreq : ∀ r ∈ (friendsRemove db u v).2.friend_requests,
      frPair r u v = false ∧ frPair r v u = false := by
    intro r hr
    rw [remove_requests] at hr
    have := (List.mem_filter.mp hr).2
    simp only [Bool.not_eq_true', Bool.or_eq_false_iff] at this
    exact this
  have hconv : ∀ c ∈ (friendsRemove db u v).2.conversations,
      convMatches c u v = false := by
    intro x hx
    unfold friendsRemove at hx
    by_contra hxm
    simp only [Bool.not_eq_false] at hxm
    revert hx
    split
    · next hf =>
        intro hx
        exact absurd hxm (by simpa using List.find?_eq_none.mp hf x hx)
    · next c hf =>
        intro hx
        have hcmem : c ∈ db.conversations := List.mem_of_find?_eq_some hf
        have hcm : convMatches c u v = true := by simpa using List.find?_some hf
        have hxmem : x ∈ db.conversations := (List.mem_filter.mp hx).1
        have hxid : (!(x.id == c.id)) = true := (List.mem_filter.mp hx).2
        have : x = c := by
          apply mem_eq_of_pairwise_ne canonOf hPU2 hxmem hcmem
          rw [convMatches_iff.mp hxm, convMatches_iff.mp hcm]
        rw [this] at hxid
        simp at hxid
  have hmsg : ∀ c0 ∈ db.conversations, convMatches c0 u v = true →
      ∀ m ∈ (friendsRemove db u v).2.messages, m.conversation_id ≠ c0.id := by
    intro c0 hc0 hc0m m hm
    unfold friendsRemove at hm
    revert hm
    split
    · next hf =>
        intro _
        exact absurd hc0m (by simpa using List.find?_eq_none.mp hf c0 hc0)
    · next c hf =>
        intro hm
        have hcmem : c ∈ db.conversations := List.mem_of_find?_eq_some hf
        have hcm : convMatches c u v = true := by simpa using List.find?_some hf
        have hce : c0 = c := by
          apply mem_eq_of_pairwise_ne canonOf hPU2 hc0 hcmem
          rw [convMatches_iff.mp hc0m, convMatches_iff.mp hcm]
        have hmid : (!(m.conversation_id == c.id)) = true :=
          (List.mem_filter.mp hm).2
        rw [hce]
        simpa using hmid
  refine ⟨remove_fst db u v, remove_fst _ u v, ?_, hreq, hconv, hmsg⟩
  have hnoop := friendsRemove_noop (friendsRemove db u v).2 u v
    (fun r hr => by have := hreq r hr; simp [this.1, this.2]) hconv
  rw [hnoop]

/-- Concrete run of the C5 theorem: removing the friendship between users 1
and 2 on the store dbChat, twice. -/
theorem friends_remove_idempotent_witness :
    (friendsRemove dbChat 1 2).1 = true ∧
    (friendsRemove (friendsRemove dbChat 1 2).2 1 2).1 = true ∧
    (friendsRemove (friendsRemove dbChat 1 2).2 1 2).2 = (friendsRemove dbChat 1 2).2 ∧
    (∀ r ∈ (friendsRemove dbChat 1 2).2.friend_requests,
      frPair r 1 2 = false ∧ frPair r 2 1 = false) ∧
    (∀ c ∈ (friendsRemove dbChat 1 2).2.conversations, convMatches c 1 2 = false) ∧
    (∀ c0 ∈ dbChat.conversations, convMatches c0 1 2 = true →
      ∀ m ∈ (friendsRemove dbChat 1 2).2.messages, m.conversation_id ≠ c0.id) :=
  friends_remove_idempotent dbChat 1 2 (by unfold PairUnique; decide)

/-- C3 counterexample: two pending requests between users 10 and 20 are
accepted concurrently.  The accept of request 1 reads its snapshot before
the accept of request 2 commits (acceptRead sees no conversation); request 2
then commits and creates conversation 1; when the accept of request 1
commits, its INSERT hits the unique index and server.js answers a 500 after
ROLLBACK — it does not re-read the conversation and succeed, contrary to the
claim of an internal one-shot retry. -/
theorem accept_no_internal_retry_counterexample :
    acceptRead dbTwoPending 10 20 = none ∧
    (acceptCommit dbTwoPending 2 20 10 none).1 = .ok "accepted" (some 1) ∧
    (acceptCommit dbAfterSecondAccept 1 10 20 none).1 = .err .serverError ∧
    (acceptCommit dbAfterSecondAccept 1 10 20 none).1 ≠ .ok "accepted" (some 1) ∧
    (acceptCommit dbAfterSecondAccept 1 10 20 none).2 = dbAfterSecondAccept := by
  decide

/-- C3 amended: in the accept branch the status update and the conversation
existence-check-then-insert run inside one transaction; when the INSERT of
the conversation hits the uniqueness constraint (a conversation for the pair
meanwhile exists although the read saw none) the whole transaction rolls
back — the store, the friend-request status included, is left unchanged —
and the call surfaces a server error; there is no internal retry.  When no
conflict occurs, the status update and the insert commit together. -/
theorem accept_conflict_rolls_back (db : DB) (rid a b : Nat) :
    ((∃ c ∈ db.conversations, convMatches c a b = true) →
      acceptCommit db rid a b none = (.err .serverError, db)) ∧
    ((∀ c ∈ db.conversations, convMatches c a b = false) →
      acceptCommit db rid a b none =
        (.ok "accepted" (some db.nextConvId),
         { setRequestStatus db rid "accepted" with
             conversations := db.conversations ++ [⟨db.nextConvId, a, b⟩],
             nextConvId := db.nextConvId + 1 })) := by
  constructor
  · intro hex
    rcases hex with ⟨c, hc, hm⟩
    have hany : db.conversations.any (fun c => convMatches c a b) = true :=
      List.any_eq_true.mpr ⟨c, hc, hm⟩
    unfold acceptCommit
    rw [hany]
    rfl
  · intro hall
    have hany : db.conversations.any (fun c => convMatches c a b) = false :=
      List.any_eq_false.mpr (fun c hc => by simp [hall c hc])
    unfold acceptCommit
    rw [hany]
    rfl

/-- Concrete run of the amended C3 theorem: the conflicting commit on
dbAfterSecondAccept rolls back and reports the server error. -/
theorem accept_conflict_rolls_back_witness :
    acceptCommit dbAfterSecondAccept 1 10 20 none
      = (.err .serverError, dbAfterSecondAccept) :=
  (accept_conflict_rolls_back dbAfterSecondAccept 1 10 20).1
    ⟨⟨1, 20, 10⟩, by decide, by decide⟩

/-- With a truthy conversation id, the socket handler and the REST handler
are the same function on the store. -/
theorem sendMessage_eq_restPost (db : DB) (c u : Nat) (s : String)
    (hc : c ≠ 0) : sendMessage db c u s = restPostMessage db c u s := by
  unfold sendMessage restPostMessage
  have h0 : (c == 0) = false := by simpa using hc
  rw [h0]
  simp only [Bool.false_or]

/-- Successful REST send, characterized: the stored and broadcast message
carries the verbatim content, the fresh id and the current clock. -/
theorem restPost_ok (db : DB) (c u : Nat) (s : String)
    (hs : blankContent s = false)
    (cv : Conversation) (hcv : cv ∈ db.conversations)
    (hid : ((cv.id == c) && ((cv.user_a == u) || (cv.user_b == u))) = true) :
    ∃ o, restPostMessage db c u s = .ok o ∧
      o.msg = ⟨db.nextMsgId, c, u, s, db.clock, false⟩ ∧
      o.db = { db with
                 messages := db.messages ++ [o.msg],
                 nextMsgId := db.nextMsgId + 1,
                 clock := db.clock + 1 } ∧
      o.effects = [Ev.commit db.nextMsgId, Ev.broadcast db.nextMsgId] := by
  unfold restPostMessage
  rw [hs]
  cases hf : db.conversations.find?
      (fun x => (x.id == c) && ((x.user_a == u) || (x.user_b == u))) with
  | none =>
      exact absurd hid (by simpa using List.find?_eq_none.mp hf cv hcv)
  | some w =>
      exact ⟨_, rfl, rfl, rfl, rfl⟩

/-- C8: the REST message-post endpoint and the socket sendMessage handler
are the same send pipeline: on any store, conversation (with its truthy id),
sender and content, the two entry points return identical results — the same
validation outcome and, on success, the identical message object, store
state and effect order. -/
theorem send_paths_equivalent (db : DB) (c u : Nat) (s : String) (hc : c ≠ 0) :
    sendMessage db c u s = restPostMessage db c u s :=
  sendMessage_eq_restPost db c u s hc

/-- Concrete run of the C8 theorem on the store dbChat. -/
theorem send_paths_equivalent_witness :
    sendMessage dbChat 5 1 "yo" = restPostMessage dbChat 5 1 "yo" :=
  send_paths_equivalent dbChat 5 1 "yo" (by decide)

/-- C10: a send whose content passes validation stores and broadcasts the
content verbatim — trimming happens only inside the emptiness check — on the
REST path, and the socket path produces the identical output. -/
theorem content_stored_verbatim (db : DB) (c u : Nat) (s : String)
    (hs : blankContent s = false)
    (cv : Conversation) (hcv : cv ∈ db.conversations) (hid : cv.id = c)
    (hpart : cv.user_a = u ∨ cv.user_b = u) :
    ∃ o, restPostMessage db c u s = .ok o ∧
      o.msg.content = s ∧ o.msg ∈ o.db.messages ∧
      (c ≠ 0 → sendMessage db c u s = .ok o) := by
  have hid2 : ((cv.id == c) && ((cv.user_a == u) || (cv.user_b == u))) = true := by
    rcases hpart with h | h <;> simp [hid, h]
  rcases restPost_ok db c u s hs cv hcv hid2 with ⟨o, hok, hmsg, hdb, heff⟩
  refine ⟨o, hok, by rw [hmsg], ?_, ?_⟩
  · rw [hdb]
    simp
  · intro hc
    rw [sendMessage_eq_restPost db c u s hc]
    exact hok

/-- Concrete run of the C10 theorem: content with surrounding whitespace is
stored exactly as sent. -/
theorem content_stored_verbatim_witness :
    ∃ o, restPostMessage dbChat 5 1 " padded  " = .ok o ∧
      o.msg.content = " padded  " ∧ o.msg ∈ o.db.messages ∧
      (5 ≠ 0 → sendMessage dbChat 5 1 " padded  " = .ok o) :=
  content_stored_verbatim dbChat 5 1 " padded  " (by decide) ⟨5, 1, 2⟩
    (by decide) rfl (Or.inl rfl)

/-- commitsOf distributes over trace concatenation. -/
theorem commitsOf_append (t1 t2 : List Ev) :
    commitsOf (t1 ++ t2) = commitsOf t1 ++ commitsOf t2 := by
  induction t1 with
  | nil => rfl
  | cons e t ih => cases e <;> simp [commitsOf, ih]

/-- broadcastsOf distributes over trace concatenation. -/
theorem broadcastsOf_append (t1 t2 : List Ev) :
    broadcastsOf (t1 ++ t2) = broadcastsOf t1 ++ broadcastsOf t2 := by
  induction t1 with
  | nil => rfl
  | cons e t ih => cases e <;> simp [broadcastsOf, ih]

/-- Event-loop invariant: the committed ids are exactly the broadcast ids
followed by the acknowledged-but-not-yet-broadcast FIFO. -/
theorem loop_inv {s : LoopState} (h : LoopReach s) :
    commitsOf s.trace = broadcastsOf s.trace ++ s.ready := by
  induction h with
  | init sends => rfl
  | step _ hst ih =>
      cases hst with
      | dbAck m pending ready trace hm =>
          simp only [commitsOf_append, broadcastsOf_append] at *
          simp only [commitsOf, broadcastsOf] at *
          rw [ih]
          simp
      | resume m pending ready trace =>
          simp only [commitsOf_append, broadcastsOf_append] at *
          simp only [commitsOf, broadcastsOf] at *
          rw [ih]
          simp

/-- C4: on both send entry points the broadcast effect comes only after the
acknowledged insert of the same message (the handler effect list is commit
then broadcast), and in every reachable event-loop state the sequence of
broadcasts performed so far is a prefix of the sequence of commits: within a
conversation group, broadcast order equals commit order. -/
theorem broadcast_after_commit_in_order :
    (∀ (db : DB) (c u : Nat) (s : String) (o : SendOut),
      restPostMessage db c u s = .ok o →
        o.effects = [Ev.commit o.msg.id, Ev.broadcast o.msg.id]) ∧
    (∀ (db : DB) (c u : Nat) (s : String) (o : SendOut),
      sendMessage db c u s = .ok o →
        o.effects = [Ev.commit o.msg.id, Ev.broadcast o.msg.id]) ∧
    (∀ s : LoopState, LoopReach s →
      broadcastsOf s.trace <+: commitsOf s.trace ∧
      commitsOf s.trace = broadcastsOf s.trace ++ s.ready) := by
  refine ⟨?_, ?_, ?_⟩
  · intro db c u s o h
    unfold restPostMessage at h
    split at h
    · cases h
    · split at h
      · cases h
      · cases h
        rfl
  · intro db c u s o h
    unfold sendMessage at h
    split at h
    · cases h
    · split at h
      · cases h
      · cases h
        rfl
  · intro s h
    have hi := loop_inv h
    constructor
    · rw [hi]
      exact List.prefix_append _ _
    · exact hi

/-- Concrete run of the C4 theorem: one send, acknowledged then broadcast,
reaching the trace with commit 7 followed by broadcast 7. -/
theorem broadcast_after_commit_in_order_witness :
    broadcastsOf [Ev.commit 7, Ev.broadcast 7] <+: commitsOf [Ev.commit 7, Ev.broadcast 7] ∧
    commitsOf [Ev.commit 7, Ev.broadcast 7]
      = broadcastsOf [Ev.commit 7, Ev.broadcast 7] ++ [] :=
  broadcast_after_commit_in_order.2.2 ⟨[], [], [Ev.commit 7, Ev.broadcast 7]⟩
    (LoopReach.step
      (LoopReach.step (LoopReach.init [7])
        (LoopStep.dbAck 7 [7] [] [] (by simp)))
      (LoopStep.resume 7 [] [] [Ev.commit 7]))

/-- Inserting a message older than every element of a descending page puts
it at the end. -/
theorem insertByCreatedDesc_append (m : Message) (l : List Message)
    (h : ∀ y ∈ l, m.created_at < y.created_at) :
    insertByCreatedDesc m l = l ++ [m] := by
  induction l with
  | nil => rfl
  | cons x xs ih =>
      have hx : m.created_at < x.created_at := h x (List.mem_cons_self x xs)
      show (if x.created_at ≤ m.created_at then m :: x :: xs
            else x :: insertByCreatedDesc m xs) = (x :: xs) ++ [m]
      rw [if_neg (by omega), ih (fun y hy => h y (List.mem_cons_of_mem x hy))]
      rfl

/-- On a page already in chronological (strictly ascending created_at)
order, ORDER BY created_at DESC is exactly the reversal. -/
theorem sortByCreatedDesc_of_chron (l : List Message)
    (h : l.Pairwise (fun a b => a.created_at < b.created_at)) :
    sortByCreatedDesc l = l.reverse := by
  induction l with
  | nil => rfl
  | cons x xs ih =>
      rcases List.pairwise_cons.mp h with ⟨hx, hxs⟩
      show insertByCreatedDesc x (sortByCreatedDesc xs) = (x :: xs).reverse
      rw [ih hxs,
          insertByCreatedDesc_append x xs.reverse
            (fun y hy => hx y (List.mem_reverse.mp hy))]
      simp

/-- C6: the message fetch answers 403 whenever the requester is not a
participant of the conversation (also when the conversation does not exist);
for a participant it returns at most min(limit, 200) messages (50 when no
limit is given), strictly newest-first by created_at, and reversing the page
to ascending created_at lists the messages in send (id) order. -/
theorem get_messages_auth_bound_ordered :
    (∀ (db : DB) (convId uid : Nat) (limit : Option Nat),
      (∀ cv ∈ db.conversations, cv.id = convId →
        cv.user_a ≠ uid ∧ cv.user_b ≠ uid) →
      getMessages db convId uid limit = .error .forbidden) ∧
    (∀ (db : DB) (convId uid : Nat) (limit : Option Nat) (cv : Conversation),
      MsgChron db → cv ∈ db.conversations → cv.id = convId →
      (cv.user_a = uid ∨ cv.user_b = uid) →
      ∃ l, getMessages db convId uid limit = .ok l ∧
        l.length ≤ min (limit.getD 50) 200 ∧
        l.Pairwise (fun a b => b.created_at < a.created_at) ∧
        l.reverse.Pairwise (fun a b => a.id < b.id ∧ a.created_at < b.created_at)) := by
  constructor
  · intro db convId uid limit h
    have hfind : db.conversations.find?
        (fun c => (c.id == convId) && ((c.user_a == uid) || (c.user_b == uid)))
          = none := by
      rw [List.find?_eq_none]
      intro x hx
      simp only [Bool.and_eq_true, Bool.or_eq_true, beq_iff_eq]
      rintro ⟨h1, h2⟩
      rcases h x hx h1 with ⟨ha, hb⟩
      rcases h2 with h2 | h2
      · exact ha h2
      · exact hb h2
    unfold getMessages
    rw [hfind]
  · intro db convId uid limit cv hMC hcv hid hpart
    have hpred : ((cv.id == convId) && ((cv.user_a == uid) || (cv.user_b == uid)))
        = true := by
      rcases hpart with h | h <;> simp [hid, h]
    have hMC2 : db.messages.Pairwise
        (fun a b => a.id < b.id ∧ a.created_at < b.created_at) := hMC
    have hflt : (db.messages.filter (fun m => m.conversation_id == convId)).Pairwise
        (fun a b => a.id < b.id ∧ a.created_at < b.created_at) :=
      hMC2.sublist (List.filter_sublist _)
    have hsort : sortByCreatedDesc
        (db.messages.filter (fun m => m.conversation_id == convId))
          = (db.messages.filter (fun m => m.conversation_id == convId)).reverse :=
      sortByCreatedDesc_of_chron _ (hflt.imp (fun h => h.2))
    have hrevp : (db.messages.filter (fun m => m.conversation_id == convId)).reverse.Pairwise
        (fun a b => b.id < a.id ∧ b.created_at < a.created_at) :=
      List.pairwise_reverse.mpr hflt
    cases hf : db.conversations.find?
        (fun c => (c.id == convId) && ((c.user_a == uid) || (c.user_b == uid))) with
    | none =>
        exact absurd hpred (by simpa using List.find?_eq_none.mp hf cv hcv)
    | some w =>
        refine ⟨_, by unfold getMessages; rw [hf], ?_, ?_, ?_⟩
        · have h1 := List.length_take_le (min 200 (limit.getD 50))
            (sortByCreatedDesc
              (db.messages.filter (fun m => m.conversation_id == convId)))
          calc (List.take (min 200 (limit.getD 50))
                  (sortByCreatedDesc
                    (db.messages.filter (fun m => m.conversation_id == convId)))).length
              ≤ min 200 (limit.getD 50) := h1
            _ = min (limit.getD 50) 200 := Nat.min_comm _ _
        · rw [hsort]
          exact (hrevp.sublist (List.take_sublist _ _)).imp (fun h => h.2)
        · rw [hsort]
          apply List.pairwise_reverse.mpr
          exact hrevp.sublist (List.take_sublist _ _)

/-- Concrete run of the C6 theorem: user 3 is rejected, participant user 1
gets the bounded newest-first page. -/
theorem get_messages_auth_bound_ordered_witness :
    getMessages dbChat 5 3 none = .error .forbidden ∧
    (∃ l, getMessages dbChat 5 1 (some 1) = .ok l ∧
      l.length ≤ min ((some 1 : Option Nat).getD 50) 200 ∧
      l.Pairwise (fun a b => b.created_at < a.created_at) ∧
      l.reverse.Pairwise (fun a b => a.id < b.id ∧ a.created_at < b.created_at)) :=
  ⟨get_messages_auth_bound_ordered.1 dbChat 5 3 none (by decide),
   get_messages_auth_bound_ordered.2 dbChat 5 1 (some 1) ⟨5, 1, 2⟩
     (by unfold MsgChron; decide) (by decide) rfl (Or.inl rfl)⟩

/-- C7: the message-deletion operation (modelled from the spec, missing from
the provided server variant) answers NotFound when no message with the given
id exists in the given conversation, Forbidden when the requester is not the
original sender (leaving the store untouched), and on success replaces the
content with the tombstone and sets the deleted flag while preserving the
row and the rest of the store, broadcasting a messageDeleted event for the
conversation group. -/
theorem delete_message_spec :
    (∀ (db : DB) (c r mId : Nat),
      (∀ m ∈ db.messages, ¬(m.id = mId ∧ m.conversation_id = c)) →
      deleteMessage db c r mId = .error .notFound) ∧
    (∀ (db : DB) (c r mId : Nat) (m : Message),
      MsgChron db → m ∈ db.messages → m.id = mId → m.conversation_id = c →
      m.sender_id ≠ r → deleteMessage db c r mId = .error .forbidden) ∧
    (∀ (db : DB) (c r mId : Nat) (m : Message),
      MsgChron db → m ∈ db.messages → m.id = mId → m.conversation_id = c →
      m.sender_id = r →
      ∃ db2 ev, deleteMessage db c r mId = .ok (db2, ev) ∧
        ev = ⟨c, mId⟩ ∧
        ({ m with content := tombstone, deleted := true }) ∈ db2.messages ∧
        db2.messages.length = db.messages.length ∧
        (∀ x ∈ db.messages, x.id ≠ mId → x ∈ db2.messages) ∧
        db2.conversations = db.conversations ∧
        db2.friend_requests = db.friend_requests) := by
  refine ⟨?_, ?_, ?_⟩
  · intro db c r mId h
    have hfind : db.messages.find?
        (fun m => (m.id == mId) && (m.conversation_id == c)) = none := by
      rw [List.find?_eq_none]
      intro x hx
      simp only [Bool.and_eq_true, beq_iff_eq]
      exact fun hc => h x hx hc
    unfold deleteMessage
    rw [hfind]
  · intro db c r mId m hMC hm hmid hmc hsender
    have hids : db.messages.Pairwise (fun a b => a.id ≠ b.id) :=
      (show db.messages.Pairwise
          (fun a b => a.id < b.id ∧ a.created_at < b.created_at) from hMC).imp
        (fun h => Nat.ne_of_lt h.1)
    cases hf : db.messages.find?
        (fun x => (x.id == mId) && (x.conversation_id == c)) with
    | none =>
        exact absurd (by simp [hmid, hmc] :
            ((m.id == mId) && (m.conversation_id == c)) = true)
          (by simpa using List.find?_eq_none.mp hf m hm)
    | some w =>
        have hww : ((w.id == mId) && (w.conversation_id == c)) = true := by
          simpa using List.find?_some hf
        have hwmem : w ∈ db.messages := List.mem_of_find?_eq_some hf
        have hwm : w = m := by
          apply mem_eq_of_pairwise_ne Message.id hids hwmem hm
          simp only [Bool.and_eq_true, beq_iff_eq] at hww
          rw [hww.1, hmid]
        have hws : (w.sender_id == r) = false := by
          rw [hwm]; simpa using hsender
        unfold deleteMessage
        rw [hf]
        simp [hws]
  · intro db c r mId m hMC hm hmid hmc hsender
    have hids : db.messages.Pairwise (fun a b => a.id ≠ b.id) :=
      (show db.messages.Pairwise
          (fun a b => a.id < b.id ∧ a.created_at < b.created_at) from hMC).imp
        (fun h => Nat.ne_of_lt h.1)
    cases hf : db.messages.find?
        (fun x => (x.id == mId) && (x.conversation_id == c)) with
    | none =>
        exact absurd (by simp [hmid, hmc] :
            ((m.id == mId) && (m.conversation_id == c)) = true)
          (by simpa using List.find?_eq_none.mp hf m hm)
    | some w =>
        have hww : ((w.id == mId) && (w.conversation_id == c)) = true := by
          simpa using List.find?_some hf
        have hwmem : w ∈ db.messages := List.mem_of_find?_eq_some hf
        have hwm : w = m := by
          apply mem_eq_of_pairwise_ne Message.id hids hwmem hm
          simp only [Bool.and_eq_true, beq_iff_eq] at hww
          rw [hww.1, hmid]
        have hws : (w.sender_id == r) = true := by
          rw [hwm]; simpa using hsender
        unfold deleteMessage
        rw [hf]
        simp only [hws, eq_self_iff_true, if_true]
        refine ⟨_, _, rfl, rfl, ?_, by simp, ?_, rfl, rfl⟩
        · have : ({ m with content := tombstone, deleted := true })
              = (fun x => if x.id == mId then
                  { x with content := tombstone, deleted := true } else x) m := by
            simp [hmid]
          rw [this]
          exact List.mem_map_of_mem _ hm
        · intro x hx hxid
          have hxeq : (fun x => if x.id == mId then
              { x with content := tombstone, deleted := true } else x) x = x := by
            simp [hxid]
          rw [← hxeq]
          exact List.mem_map_of_mem _ hx

/-- Concrete run of the C7 theorem: user 1 deletes its own message 1 in
conversation 5 of dbChat. -/
theorem delete_message_spec_witness :
    ∃ db2 ev, deleteMessage dbChat 5 1 1 = .ok (db2, ev) ∧
      ev = ⟨5, 1⟩ ∧
      ({ (⟨1, 5, 1, "hello", 0, false⟩ : Message) with
          content := tombstone, deleted := true }) ∈ db2.messages ∧
      db2.messages.length = dbChat.messages.length ∧
      (∀ x ∈ dbChat.messages, x.id ≠ 1 → x ∈ db2.messages) ∧
      db2.conversations = dbChat.conversations ∧
      db2.friend_requests = dbChat.friend_requests :=
  delete_message_spec.2.2 dbChat 5 1 1 ⟨1, 5, 1, "hello", 0, false⟩
    (by unfold MsgChron; decide) (by decide) rfl rfl rfl

/-- Appending a conversation for a pair no existing row matches preserves
canonical-pair distinctness. -/
theorem pairwise_canon_append {l : List Conversation}
    (hp : l.Pairwise (fun c1 c2 => canonOf c1 ≠ canonOf c2))
    (a b cid : Nat)
    (hnone : ∀ c ∈ l, convMatches c a b = false) :
    (l ++ [(⟨cid, a, b⟩ : Conversation)]).Pairwise
      (fun c1 c2 => canonOf c1 ≠ canonOf c2) := by
  rw [List.pairwise_append]
  refine ⟨hp, List.pairwise_singleton _ _, ?_⟩
  intro x hx y hy
  simp only [List.mem_singleton] at hy
  subst hy
  intro hcan
  have hx2 : convMatches x a b = true := convMatches_iff.mpr (by rw [hcan]; rfl)
  rw [hnone x hx] at hx2
  cases hx2

/-- Responding to a friend request preserves the conversation pair
invariant. -/
theorem pairUnique_respond (db : DB) (uid rid : Nat) (act : String)
    (h : PairUnique db) : PairUnique (friendsRespond db uid rid act).2 := by
  have h2 : db.conversations.Pairwise (fun c1 c2 => canonOf c1 ≠ canonOf c2) := h
  unfold friendsRespond
  split
  · exact h
  split
  · exact h
  split
  · exact h
  split
  · exact h
  next r hfr =>
    split
    · exact h
    split
    · exact h
    next hfc =>
      exact pairwise_canon_append h2 r.requester_id uid _
        (fun c hc => by simpa using List.find?_eq_none.mp hfc c hc)

/-- The commit phase of a concurrent accept preserves the conversation pair
invariant, whatever snapshot its read phase used. -/
theorem pairUnique_acceptCommit (db : DB) (rid a b : Nat) (rr : Option Nat)
    (h : PairUnique db) : PairUnique (acceptCommit db rid a b rr).2 := by
  have h2 : db.conversations.Pairwise (fun c1 c2 => canonOf c1 ≠ canonOf c2) := h
  unfold acceptCommit
  cases rr with
  | some cid => exact h
  | none =>
      by_cases hany : db.conversations.any (fun c => convMatches c a b) = true
      · simp only [hany, if_true]
        exact h
      · have hany2 : db.conversations.any (fun c => convMatches c a b) = false := by
          simpa using hany
        simp only [hany2, Bool.false_eq_true, if_false]
        exact pairwise_canon_append h2 a b _
          (fun c hc => by simpa using List.any_eq_false.mp hany2 c hc)

/-- Removal preserves the conversation pair invariant. -/
theorem pairUnique_remove (db : DB) (u v : Nat)
    (h : PairUnique db) : PairUnique (friendsRemove db u v).2 := by
  have h2 : db.conversations.Pairwise (fun c1 c2 => canonOf c1 ≠ canonOf c2) := h
  unfold friendsRemove
  split
  · exact h
  · exact h2.sublist (List.filter_sublist _)

/-- A successful friend-request call preserves the conversation pair
invariant in its result state. -/
theorem pairUnique_friendsRequest (db : DB) (rq : Nat) (e : String) (d : DB)
    (h : PairUnique db) (hf : friendsRequest db rq e = .ok d) :
    PairUnique d := by
  unfold friendsRequest at hf
  cases hff : db.users.find? (fun u => u.email == e) with
  | none => rw [hff] at hf; cases hf
  | some u =>
      rw [hff] at hf
      by_cases hc : (u.id == rq) = true
      · simp [hc] at hf
      · simp [hc] at hf
        rw [← hf]
        show PairUnique (upsertFriendRequest db rq u.id)
        unfold upsertFriendRequest
        split
        · exact h
        · exact h

/-- A successful REST send leaves the conversations table unchanged. -/
theorem restPost_conversations (db : DB) (c u : Nat) (s : String) (o : SendOut)
    (hf : restPostMessage db c u s = .ok o) :
    o.db.conversations = db.conversations := by
  unfold restPostMessage at hf
  split at hf
  · cases hf
  · split at hf
    · cases hf
    · cases hf
      rfl

/-- A successful socket send leaves the conversations table unchanged. -/
theorem sendMessage_conversations (db : DB) (c u : Nat) (s : String) (o : SendOut)
    (hf : sendMessage db c u s = .ok o) :
    o.db.conversations = db.conversations := by
  unfold sendMessage at hf
  split at hf
  · cases hf
  · split at hf
    · cases hf
    · cases hf
      rfl

/-- A successful message deletion leaves the conversations table
unchanged. -/
theorem deleteMessage_conversations (db : DB) (c r mId : Nat)
    (o : DB × DeleteEvent) (hf : deleteMessage db c r mId = .ok o) :
    o.1.conversations = db.conversations := by
  unfold deleteMessage at hf
  split at hf
  · cases hf
  · split at hf
    · cases hf
      rfl
    · cases hf

/-- Every operation of the server preserves the conversation pair
invariant. -/
theorem pairUnique_applyOp (op : Op) (db : DB)
    (h : PairUnique db) : PairUnique (applyOp op db) := by
  cases op with
  | request rq e =>
      show PairUnique (match friendsRequest db rq e with
        | Except.ok d => d
        | Except.error _ => db)
      cases hf : friendsRequest db rq e with
      | ok d => exact pairUnique_friendsRequest db rq e d h hf
      | error er => exact h
  | respond uid rid act =>
      exact pairUnique_respond db uid rid act h
  | remove uid fid =>
      exact pairUnique_remove db uid fid h
  | restPost c u s =>
      show PairUnique (match restPostMessage db c u s with
        | Except.ok o => o.db
        | Except.error _ => db)
      cases hf : restPostMessage db c u s with
      | ok o =>
          show o.db.conversations.Pairwise (fun c1 c2 => canonOf c1 ≠ canonOf c2)
          rw [restPost_conversations db c u s o hf]
          exact h
      | error er => exact h
  | socketSend c u s =>
      show PairUnique (match sendMessage db c u s with
        | Except.ok o => o.db
        | Except.error _ => db)
      cases hf : sendMessage db c u s with
      | ok o =>
          show o.db.conversations.Pairwise (fun c1 c2 => canonOf c1 ≠ canonOf c2)
          rw [sendMessage_conversations db c u s o hf]
          exact h
      | error er => exact h
  | msgDelete c r mId =>
      show PairUnique (match deleteMessage db c r mId with
        | Except.ok o => o.1
        | Except.error _ => db)
      cases hf : deleteMessage db c r mId with
      | ok o =>
          show o.1.conversations.Pairwise (fun c1 c2 => canonOf c1 ≠ canonOf c2)
          rw [deleteMessage_conversations db c r mId o hf]
          exact h
      | error er => exact h
  | acceptPhase2 rid a b rr =>
      exact pairUnique_acceptCommit db rid a b rr h

/-- An authorized accept finding an existing conversation for the pair
reuses its id and inserts nothing. -/
theorem respond_accept_reuses (db : DB) (userId requestId : Nat)
    (r : FriendRequest) (c : Conversation)
    (hPU : PairUnique db) (hrid : requestId ≠ 0) (huid : userId ≠ 0)
    (hfr : db.friend_requests.find?
      (fun x => (x.id == requestId) && (x.receiver_id == userId)) = some r)
    (hc : c ∈ db.conversations)
    (hcm : convMatches c r.requester_id userId = true) :
    friendsRespond db userId requestId "accept"
      = (.ok "accepted" (some c.id), setRequestStatus db requestId "accepted") := by
  have h2 : db.conversations.Pairwise (fun c1 c2 => canonOf c1 ≠ canonOf c2) := hPU
  have h1 : (requestId == 0) = false := by simpa using hrid
  have hu : (userId == 0) = false := by simpa using huid
  cases hfc : (setRequestStatus db requestId "accepted").conversations.find?
      (fun x => convMatches x r.requester_id userId) with
  | none =>
      exact absurd hcm (by simpa using List.find?_eq_none.mp hfc c hc)
  | some w =>
      have hw : convMatches w r.requester_id userId = true := by
        simpa using List.find?_some hfc
      have hwmem : w ∈ db.conversations := List.mem_of_find?_eq_some hfc
      have hwc : w = c :=
        mem_eq_of_pairwise_ne canonOf h2 hwmem hc
          (by rw [convMatches_iff.mp hw, convMatches_iff.mp hcm])
      unfold friendsRespond
      simp [h1, hu, hfr, hfc, hwc]

/-- C1: the unordered-pair uniqueness of conversations is an invariant of
every server operation — friend request, respond (either action), removal,
both send paths, message deletion, and the commit phase of any concurrent
accept however stale its read snapshot — and an accept that finds an
existing conversation for the pair returns that conversation id and leaves
the conversations table unchanged rather than creating a second row. -/
theorem conversations_pair_unique_invariant :
    (∀ (op : Op) (db : DB), PairUnique db → PairUnique (applyOp op db)) ∧
    (∀ (db : DB) (userId requestId : Nat) (r : FriendRequest) (c : Conversation),
      PairUnique db → requestId ≠ 0 → userId ≠ 0 →
      db.friend_requests.find?
        (fun x => (x.id == requestId) && (x.receiver_id == userId)) = some r →
      c ∈ db.conversations → convMatches c r.requester_id userId = true →
      (friendsRespond db userId requestId "accept").1
          = .ok "accepted" (some c.id) ∧
      (friendsRespond db userId requestId "accept").2.conversations
          = db.conversations) :=
  ⟨pairUnique_applyOp,
   fun db userId requestId r c hPU hr hu hfr hc hcm => by
     rw [respond_accept_reuses db userId requestId r c hPU hr hu hfr hc hcm]
     exact ⟨rfl, rfl⟩⟩

/-- Concrete run of the C1 theorem: a racy accept commit on dbReq cannot
break pair uniqueness, and accepting request 1 reuses conversation 5. -/
theorem conversations_pair_unique_invariant_witness :
    PairUnique (applyOp (Op.acceptPhase2 1 1 2 none) dbReq) ∧
    ((friendsRespond dbReq 2 1 "accept").1 = .ok "accepted" (some 5) ∧
     (friendsRespond dbReq 2 1 "accept").2.conversations = dbReq.conversations) :=
  ⟨conversations_pair_unique_invariant.1 (Op.acceptPhase2 1 1 2 none) dbReq
     (by unfold PairUnique; decide),
   conversations_pair_unique_invariant.2 dbReq 2 1 ⟨1, 1, 2, "pending"⟩ ⟨5, 1, 2⟩
     (by unfold PairUnique; decide) (by decide) (by decide) (by decide)
     (by decide) (by decide)⟩
